import Mathlib

/-!
Shallow embedding of the GNN tutorial notebooks of this repository.

Graphs are directed edge lists; node and edge features are rational-valued
vectors (`Nat → ℚ`); torch linear layers are explicit weight/bias data.
The DGL message-passing primitives used by the notebooks (update_all with
copy_u or u_mul_e messages and a mean reducer, apply_edges with u_dot_v)
are embedded as pure functions over the edge list, and g.local_scope() as a
combinator that discards the writes of its body.
-/

/-- A directed DGL graph: the number of nodes and the edge list.  Edge ids
are positions in the list; the edge `(u, v)` goes from source `u` to
destination `v`. -/
structure DGLGraph where
  numNodes : Nat
  edges : List (Nat × Nat)
deriving DecidableEq

/-- A feature vector: rational entries indexed by coordinate. -/
abbrev Vec := Nat → ℚ

/-- Ids of the in-edges of node `v`: the positions in the edge list whose
destination is `v`. -/
def DGLGraph.inIds (g : DGLGraph) (v : Nat) : List Nat :=
  (List.range g.edges.length).filter (fun eid => (g.edges.getD eid (0, 0)).2 == v)

/-- In-degree of node `v`: the number of in-edges. -/
def DGLGraph.inDeg (g : DGLGraph) (v : Nat) : Nat := (g.inIds v).length

/-- torch.nn.Linear: a weight matrix, a bias vector, and the input
dimension over which the matrix-vector product is taken. -/
structure Linear where
  weight : Nat → Nat → ℚ
  bias : Nat → ℚ
  inFeat : Nat

/-- Applying a linear layer: `W x + b`. -/
def Linear.apply (l : Linear) (x : Vec) : Vec :=
  fun j => (∑ i in Finset.range l.inFeat, l.weight j i * x i) + l.bias j

/-- torch.cat([x, y], dim=1) on one row, where `x` has `d` coordinates:
the first `d` coordinates come from `x`, the rest from `y`. -/
def catVec (d : Nat) (x y : Vec) : Vec :=
  fun i => if i < d then x i else y (i - d)

/-- g.update_all(fn.copy_u(h, m), fn.mean(m, h_N)): each node receives its
feature vectors of the in-neighbors and averages them; a node with no in-edges
gets the zero vector (DGL fills zero for nodes receiving no message, and
here the division by the zero in-degree yields zero). -/
def updateAllCopyUMean (g : DGLGraph) (h : Nat → Vec) : Nat → Vec :=
  fun v i =>
    ((g.inIds v).map (fun eid => h (g.edges.getD eid (0, 0)).1 i)).sum / (g.inDeg v : ℚ)

/-- g.update_all(fn.u_mul_e(h, w, m), fn.mean(m, h_N)): each message is the
source feature scaled by the edge weight, and the reducer averages the
incoming messages (dividing by the in-degree). -/
def updateAllUMulEMean (g : DGLGraph) (h : Nat → Vec) (w : Nat → ℚ) : Nat → Vec :=
  fun v i =>
    ((g.inIds v).map (fun eid => w eid * h (g.edges.getD eid (0, 0)).1 i)).sum / (g.inDeg v : ℚ)

/-- SAGEConv.forward from the node-classification notebook: aggregate the
in-neighbor mean, concatenate it with the feature of the node itself (of dimension
`d`), and apply the linear projection. -/
def SAGEConv.forward (lin : Linear) (d : Nat) (g : DGLGraph) (h : Nat → Vec) : Nat → Vec :=
  fun v => lin.apply (catVec d (h v) (updateAllCopyUMean g h v))

/-- WeightedSAGEConv.forward: like SAGEConv but the messages are weighted
by the per-edge weights `w` before the mean reducer. -/
def WeightedSAGEConv.forward (lin : Linear) (d : Nat) (g : DGLGraph) (h : Nat → Vec)
    (w : Nat → ℚ) : Nat → Vec :=
  fun v => lin.apply (catVec d (h v) (updateAllUMulEMean g h w v))

/-- The in-edge ids of `v` as a finite set of positions. -/
def inIdsFinset (g : DGLGraph) (v : Nat) : Finset Nat :=
  (Finset.range g.edges.length).filter (fun eid => (g.edges.getD eid (0, 0)).2 = v)

/-- The aggregation claimed for WeightedSAGEConv: the weighted sum of
in-neighbor features divided by the sum of the in-edge weights. -/
def claimedWeightedMeanAgg (g : DGLGraph) (h : Nat → Vec) (w : Nat → ℚ) : Nat → Vec :=
  fun v i =>
    (∑ eid in inIdsFinset g v, w eid * h (g.edges.getD eid (0, 0)).1 i)
      / (∑ eid in inIdsFinset g v, w eid)

/-- The aggregation the code actually performs: the weighted sum of
in-neighbor features divided by the in-degree (the number of in-edges). -/
def weightedSumByDegreeAgg (g : DGLGraph) (h : Nat → Vec) (w : Nat → ℚ) : Nat → Vec :=
  fun v i =>
    (∑ eid in inIdsFinset g v, w eid * h (g.edges.getD eid (0, 0)).1 i)
      / ((inIdsFinset g v).card : ℚ)

lemma sum_map_filter_range (n : Nat) (p : Nat → Bool) (f : Nat → ℚ) :
    (((List.range n).filter p).map f).sum
      = ∑ i in (Finset.range n).filter (fun i => p i = true), f i := by
  induction n with
  | zero => simp
  | succ m ih =>
    rw [List.range_succ, List.filter_append, List.map_append, List.sum_append,
      Finset.range_succ, Finset.filter_insert]
    by_cases hp : p m = true
    · rw [if_pos hp, Finset.sum_insert (by simp)]
      simp only [List.filter_cons, hp, if_pos, List.filter_nil, List.map_cons, List.map_nil,
        List.sum_cons, List.sum_nil, add_zero, ih]
      ring
    · rw [if_neg hp]
      simp only [List.filter_cons, hp, Bool.false_eq_true, if_neg, List.filter_nil,
        List.map_nil, List.sum_nil, add_zero, ih]
      simp

lemma length_filter_range (n : Nat) (p : Nat → Bool) :
    ((List.range n).filter p).length
      = ((Finset.range n).filter (fun i => p i = true)).card := by
  induction n with
  | zero => simp
  | succ m ih =>
    rw [List.range_succ, List.filter_append, List.length_append,
      Finset.range_succ, Finset.filter_insert]
    by_cases hp : p m = true
    · rw [if_pos hp, Finset.card_insert_of_not_mem (by simp)]
      simp [List.filter_cons, hp, ih]
    · rw [if_neg hp]
      simp [List.filter_cons, hp, ih]

lemma inIds_eq_finset (g : DGLGraph) (v : Nat) (f : Nat → ℚ) :
    ((g.inIds v).map f).sum = ∑ eid in inIdsFinset g v, f eid := by
  rw [DGLGraph.inIds, inIdsFinset, sum_map_filter_range]
  congr 1
  apply Finset.filter_congr
  intro x _
  simp

lemma inDeg_eq_card (g : DGLGraph) (v : Nat) :
    g.inDeg v = (inIdsFinset g v).card := by
  rw [DGLGraph.inDeg, DGLGraph.inIds, inIdsFinset, length_filter_range]
  congr 1
  apply Finset.filter_congr
  intro x _
  simp

lemma updateAllUMulEMean_eq (g : DGLGraph) (h : Nat → Vec) (w : Nat → ℚ) :
    updateAllUMulEMean g h w = weightedSumByDegreeAgg g h w := by
  funext v i
  unfold updateAllUMulEMean weightedSumByDegreeAgg
  rw [inIds_eq_finset, inDeg_eq_card]

lemma updateAllUMulEMean_ones (g : DGLGraph) (h : Nat → Vec) :
    updateAllUMulEMean g h (fun _ => 1) = updateAllCopyUMean g h := by
  funext v i
  unfold updateAllUMulEMean updateAllCopyUMean
  simp

/-- C1 counterexample: a single node with a self-loop of weight 2 and
feature 1.  The code computes an aggregated value of (2*1)/1 = 2 (dividing
by the in-degree), while the claimed weighted mean is (2*1)/2 = 1, so with
a linear layer that reads the aggregated coordinate the two disagree even
though the node has an in-neighbor. -/
def c1Graph : DGLGraph := ⟨1, [(0, 0)]⟩

def c1Lin : Linear := ⟨fun _ i => if i = 1 then 1 else 0, fun _ => 0, 2⟩

def c1H : Nat → Vec := fun _ _ => 1

def c1W : Nat → ℚ := fun _ => 2

/-- C1: the claim is false as stated: at the single-node graph with a
self-loop of weight 2, the node has an in-neighbor, yet the value returned
by WeightedSAGEConv.forward differs from the linear layer applied to the
concatenation of the node feature with the claimed weighted mean
(sum of w*h divided by sum of w). -/
theorem C1_counterexample :
    1 ≤ c1Graph.inDeg 0 ∧
      WeightedSAGEConv.forward c1Lin 1 c1Graph c1H c1W 0 0
        ≠ c1Lin.apply (catVec 1 (c1H 0) (claimedWeightedMeanAgg c1Graph c1H c1W 0)) 0 := by
  refine ⟨by decide, ?_⟩
  unfold WeightedSAGEConv.forward claimedWeightedMeanAgg updateAllUMulEMean
  norm_num [c1Lin, c1Graph, c1H, c1W, Linear.apply, catVec, DGLGraph.inIds, DGLGraph.inDeg,
    inIdsFinset, Finset.sum_range_succ, List.range_succ, Finset.range_one]

/-- C1 (amended): for every node with at least one in-neighbor, the
aggregated feature computed by WeightedSAGEConv.forward is the weighted sum
of in-neighbor features divided by the number of in-edges (the in-degree),
not by the sum of the weights, and the returned value is the linear layer
applied to the concatenation of the feature of the node itself with that
aggregation. -/
theorem C1_weightedSAGE_mean_by_degree (lin : Linear) (d : Nat) (g : DGLGraph)
    (h : Nat → Vec) (w : Nat → ℚ) (v : Nat) (_hdeg : 1 ≤ g.inDeg v) :
    WeightedSAGEConv.forward lin d g h w v
      = lin.apply (catVec d (h v) (weightedSumByDegreeAgg g h w v)) := by
  unfold WeightedSAGEConv.forward
  rw [updateAllUMulEMean_eq]

/-- C1 witness: the amended statement instantiated at the self-loop
example. -/
theorem C1_witness :
    1 ≤ c1Graph.inDeg 0 ∧
      WeightedSAGEConv.forward c1Lin 1 c1Graph c1H c1W 0
        = c1Lin.apply (catVec 1 (c1H 0) (weightedSumByDegreeAgg c1Graph c1H c1W 0)) :=
  ⟨by decide, C1_weightedSAGE_mean_by_degree c1Lin 1 c1Graph c1H c1W 0 (by decide)⟩

/-- C8: with the all-ones edge-weight vector the weighted convolution
coincides with the unweighted one: u_mul_e with weight 1 sends exactly the
source feature, so the mean aggregation and the final projection agree. -/
theorem C8_weighted_ones_eq_unweighted (lin : Linear) (d : Nat) (g : DGLGraph)
    (h : Nat → Vec) :
    WeightedSAGEConv.forward lin d g h (fun _ => 1) = SAGEConv.forward lin d g h := by
  funext v
  unfold WeightedSAGEConv.forward SAGEConv.forward
  rw [updateAllUMulEMean_ones]

/-! ## Graph feature dictionaries and local_scope -/

/-- A named feature store, as in g.ndata / g.edata: an association list from
attribute names to tensors (vectors indexed by node id or edge id). -/
abbrev FeatStore := List (String × (Nat → Vec))

/-- Setting a named attribute (g.ndata[k] = f). -/
def setData (store : FeatStore) (k : String) (f : Nat → Vec) : FeatStore :=
  (k, f) :: store.filter (fun kv => kv.1 ≠ k)

/-- Reading a named attribute; a missing key reads as the zero tensor. -/
def getData (store : FeatStore) (k : String) : Nat → Vec :=
  match store.find? (fun kv => kv.1 == k) with
  | some kv => kv.2
  | none => fun _ _ => 0

/-- A DGL graph together with its caller-visible node-data and edge-data
dictionaries. -/
structure GraphData where
  graph : DGLGraph
  ndata : FeatStore
  edata : FeatStore

/-- g.local_scope(): the body runs on the graph, but every write it makes
to the data dictionaries is discarded when the scope exits; only the
returned value survives. -/
def localScope {α : Type} (g : GraphData) (body : GraphData → GraphData × α) :
    GraphData × α :=
  (g, (body g).2)

/-- SAGEConv.forward as the notebook writes it: inside local_scope, store
the input features under "h", run update_all storing the neighbor mean
under "h_N", concatenate, and apply the linear layer. -/
def SAGEConv.forwardG (lin : Linear) (d : Nat) (g : GraphData) (h : Nat → Vec) :
    GraphData × (Nat → Vec) :=
  localScope g (fun g0 =>
    let g1 : GraphData := { g0 with ndata := setData g0.ndata "h" h }
    let hN : Nat → Vec := updateAllCopyUMean g1.graph (getData g1.ndata "h")
    let g2 : GraphData := { g1 with ndata := setData g1.ndata "h_N" hN }
    (g2, fun v =>
      lin.apply (catVec d (getData g2.ndata "h" v) (getData g2.ndata "h_N" v))))

/-- g.apply_edges(fn.u_dot_v("h", "h", "score")): for each edge id, a
1-element vector holding the dot product (over the feature dimension `d`)
of the source and destination features. -/
def applyEdgesUDotV (d : Nat) (g : DGLGraph) (h : Nat → Vec) : Nat → Vec :=
  fun eid j =>
    if j = 0 then
      ∑ i in Finset.range d,
        h (g.edges.getD eid (0, 0)).1 i * h (g.edges.getD eid (0, 0)).2 i
    else 0

/-- DotPredictor.forward: inside local_scope, store "h", apply u_dot_v into
the edge attribute "score", and return its first column as a 1-D tensor
with one entry per edge. -/
def DotPredictor.forwardG (d : Nat) (g : GraphData) (h : Nat → Vec) :
    GraphData × List ℚ :=
  localScope g (fun g0 =>
    let g1 : GraphData := { g0 with ndata := setData g0.ndata "h" h }
    let score : Nat → Vec := applyEdgesUDotV d g1.graph (getData g1.ndata "h")
    let g2 : GraphData := { g1 with edata := setData g1.edata "score" score }
    (g2, (List.range g2.graph.edges.length).map (fun eid => getData g2.edata "score" eid 0)))

lemma getData_setData (store : FeatStore) (k : String) (f : Nat → Vec) :
    getData (setData store k f) k = f := by
  simp [getData, setData, List.find?]

/-- C3: the dot-product edge scorer returns a one-dimensional tensor with
exactly one entry per edge of g, and the i-th entry is the dot product of
h at the source of the i-th edge of g with h at its destination. -/
theorem C3_dotPredictor_scores (d : Nat) (g : GraphData) (h : Nat → Vec) (i : Nat)
    (hi : i < g.graph.edges.length) :
    (DotPredictor.forwardG d g h).2.length = g.graph.edges.length ∧
      (DotPredictor.forwardG d g h).2.getD i 0
        = ∑ c in Finset.range d,
            h (g.graph.edges.getD i (0, 0)).1 c * h (g.graph.edges.getD i (0, 0)).2 c := by
  constructor
  · simp [DotPredictor.forwardG, localScope]
  · simp only [DotPredictor.forwardG, localScope]
    rw [List.getD_eq_getElem?_getD, List.getElem?_map, List.getElem?_range hi]
    simp [getData_setData, applyEdgesUDotV, getData_setData]

/-- C3 witness: two nodes, one edge 0 → 1, feature dimension 2. -/
theorem C3_witness :
    (DotPredictor.forwardG 2 ⟨⟨2, [(0, 1)]⟩, [], []⟩ (fun v i => (v : ℚ) + (i : ℚ))).2.length
        = (⟨2, [(0, 1)]⟩ : DGLGraph).edges.length ∧
      (DotPredictor.forwardG 2 ⟨⟨2, [(0, 1)]⟩, [], []⟩ (fun v i => (v : ℚ) + (i : ℚ))).2.getD 0 0
        = ∑ c in Finset.range 2,
            (fun v i => (v : ℚ) + (i : ℚ)) ((⟨2, [(0, 1)]⟩ : DGLGraph).edges.getD 0 (0, 0)).1 c
              * (fun v i => (v : ℚ) + (i : ℚ)) ((⟨2, [(0, 1)]⟩ : DGLGraph).edges.getD 0 (0, 0)).2 c :=
  C3_dotPredictor_scores 2 ⟨⟨2, [(0, 1)]⟩, [], []⟩ (fun v i => (v : ℚ) + (i : ℚ)) 0 (by decide)

/-- C6: the forward computations leave the caller-visible graph data
unchanged: after SAGEConv.forward and DotPredictor.forward, the node-data
and edge-data dictionaries are exactly what they were before the call; the
temporary attributes written inside local_scope do not persist. -/
theorem C6_forward_preserves_graph_data (lin : Linear) (d : Nat) (g : GraphData)
    (h : Nat → Vec) :
    (SAGEConv.forwardG lin d g h).1.ndata = g.ndata ∧
      (SAGEConv.forwardG lin d g h).1.edata = g.edata ∧
      (DotPredictor.forwardG d g h).1.ndata = g.ndata ∧
      (DotPredictor.forwardG d g h).1.edata = g.edata :=
  ⟨rfl, rfl, rfl, rfl⟩

/-! ## SparseMHA (graph transformer notebook) -/

/-- SparseMHA: hidden size, number of heads, the four projections, the
scaling factor head_dim ** -0.5 (irrational in general, kept as a
parameter), and the exponential used by softmax (kept as a parameter). -/
structure SparseMHA where
  hiddenSize : Nat
  numHeads : Nat
  qProj : Linear
  kProj : Linear
  vProj : Linear
  outProj : Linear
  scaling : ℚ
  expf : ℚ → ℚ

/-- head_dim = hidden_size // num_heads. -/
def SparseMHA.headDim (m : SparseMHA) : Nat := m.hiddenSize / m.numHeads

/-- q_proj(h).reshape(N, dh, nh) with q *= scaling: the reshape puts flat
coordinate dd*nh + hd at position [dd, hd]. -/
def SparseMHA.q (m : SparseMHA) (h : Nat → Vec) (n dd hd : Nat) : ℚ :=
  m.scaling * m.qProj.apply (h n) (dd * m.numHeads + hd)

/-- k_proj(h).reshape(N, dh, nh). -/
def SparseMHA.k (m : SparseMHA) (h : Nat → Vec) (n dd hd : Nat) : ℚ :=
  m.kProj.apply (h n) (dd * m.numHeads + hd)

/-- v_proj(h).reshape(N, dh, nh). -/
def SparseMHA.v (m : SparseMHA) (h : Nat → Vec) (n dd hd : Nat) : ℚ :=
  m.vProj.apply (h n) (dd * m.numHeads + hd)

/-- One entry of dglsp.bsddmm(A, q, k.transpose(1, 0)): the per-head dot
product of the scaled query of i with the key of j (the stored values of A are
all ones in the notebook). -/
def SparseMHA.score (m : SparseMHA) (h : Nat → Vec) (i j hd : Nat) : ℚ :=
  ∑ dd in Finset.range m.headDim, m.q h i dd hd * m.k h j dd hd

/-- The stored entries of row i of the sparsity pattern. -/
def rowEntries (A : List (Nat × Nat)) (i : Nat) : List (Nat × Nat) :=
  A.filter (fun e => e.1 == i)

/-- The softmax denominator of sparse row i, head hd: the sparse softmax
normalizes over the stored entries of the row. -/
def SparseMHA.rowDenom (m : SparseMHA) (A : List (Nat × Nat)) (h : Nat → Vec)
    (i hd : Nat) : ℚ :=
  ((rowEntries A i).map (fun e => m.expf (m.score h i e.2 hd))).sum

/-- One flattened coordinate of dglsp.bspmm(attn, v).reshape(N, -1): the
attention-weighted sum of v over the stored entries of row n, at head
idx % nh and head coordinate idx / nh. -/
def SparseMHA.sparseOut (m : SparseMHA) (A : List (Nat × Nat)) (h : Nat → Vec)
    (n idx : Nat) : ℚ :=
  ((rowEntries A n).map (fun e =>
    m.expf (m.score h n e.2 (idx % m.numHeads)) / m.rowDenom A h n (idx % m.numHeads)
      * m.v h e.2 (idx / m.numHeads) (idx % m.numHeads))).sum

/-- SparseMHA.forward: bsddmm scores on the pattern, sparse softmax per
row, bspmm against v, reshape back to (N, hidden), out_proj. -/
def SparseMHA.sparseForward (m : SparseMHA) (A : List (Nat × Nat)) (h : Nat → Vec) :
    Nat → Vec :=
  fun n => m.outProj.apply (m.sparseOut A h n)

/-- The dense reference of C2: the attention weight from j to i is the
softmax over the neighbors of i (the sparsity pattern of A) of the scaled dot
products, non-adjacent pairs receive weight zero. -/
def SparseMHA.denseAttn (m : SparseMHA) (A : List (Nat × Nat)) (N : Nat) (h : Nat → Vec)
    (i j hd : Nat) : ℚ :=
  if (i, j) ∈ A then
    m.expf (m.score h i j hd)
      / ∑ jp in (Finset.range N).filter (fun jp => (i, jp) ∈ A), m.expf (m.score h i jp hd)
  else 0

/-- One flattened coordinate of the dense reference: the attention-weighted
sum of v over all N nodes. -/
def SparseMHA.denseOut (m : SparseMHA) (A : List (Nat × Nat)) (N : Nat) (h : Nat → Vec)
    (n idx : Nat) : ℚ :=
  ∑ j in Finset.range N,
    m.denseAttn A N h n j (idx % m.numHeads) * m.v h j (idx / m.numHeads) (idx % m.numHeads)

/-- The dense reference forward: per head, the attention-weighted sum of v
over all N nodes, concatenated across heads and passed through out_proj. -/
def SparseMHA.denseForward (m : SparseMHA) (A : List (Nat × Nat)) (N : Nat)
    (h : Nat → Vec) : Nat → Vec :=
  fun n => m.outProj.apply (m.denseOut A N h n)

lemma rowEntries_sum (A : List (Nat × Nat)) (N i : Nat) (hnd : A.Nodup)
    (hb : ∀ e ∈ A, e.2 < N) (g : Nat → ℚ) :
    ((rowEntries A i).map (fun e => g e.2)).sum
      = ∑ j in (Finset.range N).filter (fun j => (i, j) ∈ A), g j := by
  have hmap : (rowEntries A i).map (fun e => g e.2)
      = ((rowEntries A i).map Prod.snd).map g := by
    rw [List.map_map]
    rfl
  have hfst : ∀ e ∈ rowEntries A i, e.1 = i := by
    intro e he
    have := (List.mem_filter.mp he).2
    simpa using this
  have hnodup : ((rowEntries A i).map Prod.snd).Nodup := by
    apply List.Nodup.map_on
    · intro x hx y hy hxy
      have hxi := hfst x hx
      have hyi := hfst y hy
      exact Prod.ext (hxi.trans hyi.symm) hxy
    · exact List.Nodup.filter _ hnd
  have hset : ((rowEntries A i).map Prod.snd).toFinset
      = (Finset.range N).filter (fun j => (i, j) ∈ A) := by
    ext j
    simp only [List.mem_toFinset, List.mem_map, rowEntries, List.mem_filter,
      Finset.mem_filter, Finset.mem_range, beq_iff_eq]
    constructor
    · rintro ⟨e, ⟨heA, hei⟩, hej⟩
      have : e = (i, j) := by
        cases e
        simp_all
      subst this
      exact ⟨hb _ heA, heA⟩
    · rintro ⟨hjN, hij⟩
      exact ⟨(i, j), ⟨hij, rfl⟩, rfl⟩
  rw [hmap, ← List.sum_toFinset _ hnodup, hset]

/-- C2: SparseMHA.forward computes the same result as the naive dense
multi-head attention reference in which the attention weight from j to i
is the softmax over the neighbors of i of the scaled dot products, non-adjacent
pairs receive weight zero, and the output is out_proj of the concatenated
per-head attention-weighted sums of v; provided the sparsity pattern has
no duplicate entries and stays inside the N-by-N matrix. -/
theorem C2_sparseMHA_refines_dense (m : SparseMHA) (A : List (Nat × Nat)) (N : Nat)
    (h : Nat → Vec) (hnd : A.Nodup) (hb : ∀ e ∈ A, e.1 < N ∧ e.2 < N) :
    m.sparseForward A h = m.denseForward A N h := by
  have hcols : ∀ e ∈ A, e.2 < N := fun e he => (hb e he).2
  have hout : m.sparseOut A h = m.denseOut A N h := by
    funext n idx
    have hden : m.rowDenom A h n (idx % m.numHeads)
        = ∑ jp in (Finset.range N).filter (fun jp => (n, jp) ∈ A),
            m.expf (m.score h n jp (idx % m.numHeads)) := by
      unfold SparseMHA.rowDenom
      exact rowEntries_sum A N n hnd hcols
        (fun j => m.expf (m.score h n j (idx % m.numHeads)))
    unfold SparseMHA.sparseOut SparseMHA.denseOut
    rw [rowEntries_sum A N n hnd hcols
      (fun j => m.expf (m.score h n j (idx % m.numHeads)) / m.rowDenom A h n (idx % m.numHeads)
        * m.v h j (idx / m.numHeads) (idx % m.numHeads))]
    simp only [SparseMHA.denseAttn, ite_mul, zero_mul]
    rw [← Finset.sum_filter]
    rw [hden]
  funext n
  unfold SparseMHA.sparseForward SparseMHA.denseForward
  rw [hout]

def c2M : SparseMHA :=
  ⟨2, 2, ⟨fun j i => if j = i then 1 else 0, fun _ => 0, 2⟩,
    ⟨fun j i => if j = i then 1 else 0, fun _ => 0, 2⟩,
    ⟨fun j i => if j = i then 1 else 0, fun _ => 0, 2⟩,
    ⟨fun j i => if j = i then 1 else 0, fun _ => 0, 2⟩,
    1, fun x => 1 + x * x⟩

def c2A : List (Nat × Nat) := [(0, 1), (1, 0), (1, 1)]

def c2H : Nat → Vec := fun v i => (v : ℚ) + (i : ℚ)

/-- C2 witness: the refinement instantiated on a 2-node pattern. -/
theorem C2_witness :
    c2M.sparseForward c2A c2H = c2M.denseForward c2A 2 c2H :=
  C2_sparseMHA_refines_dense c2M c2A 2 c2H (by decide) (by decide)

/-! ## Error propagation (C7) -/

/-- g.local_scope() around a fallible body: on success only the returned
value survives; on failure the error surfaces as-is and the caller-visible
dictionaries are the original ones in either case. -/
def localScopeE {α : Type} (g : GraphData) (body : GraphData → Except String (GraphData × α)) :
    GraphData × Except String α :=
  match body g with
  | .ok pr => (g, .ok pr.2)
  | .error err => (g, .error err)

/-- SAGEConv.forward where the update_all library call is an arbitrary
fallible primitive: the notebook wraps it in no try/except, so a failure
must surface unchanged. -/
def SAGEConv.forwardErr (upd : DGLGraph → (Nat → Vec) → Except String (Nat → Vec))
    (lin : Linear) (d : Nat) (g : GraphData) (h : Nat → Vec) :
    GraphData × Except String (Nat → Vec) :=
  localScopeE g (fun g0 =>
    let g1 : GraphData := { g0 with ndata := setData g0.ndata "h" h }
    match upd g1.graph (getData g1.ndata "h") with
    | .error err => .error err
    | .ok hN =>
      let g2 : GraphData := { g1 with ndata := setData g1.ndata "h_N" hN }
      .ok (g2, fun v =>
        lin.apply (catVec d (getData g2.ndata "h" v) (getData g2.ndata "h_N" v))))

/-- DotPredictor.forward where the apply_edges library call is an arbitrary
fallible primitive. -/
def DotPredictor.forwardErr (ae : DGLGraph → (Nat → Vec) → Except String (Nat → Vec))
    (g : GraphData) (h : Nat → Vec) : GraphData × Except String (List ℚ) :=
  localScopeE g (fun g0 =>
    let g1 : GraphData := { g0 with ndata := setData g0.ndata "h" h }
    match ae g1.graph (getData g1.ndata "h") with
    | .error err => .error err
    | .ok score =>
      let g2 : GraphData := { g1 with edata := setData g1.edata "score" score }
      .ok (g2, (List.range g2.graph.edges.length).map
        (fun eid => getData g2.edata "score" eid 0)))

/-- C7: the tutorial code catches nothing: if the library call inside
SAGEConv.forward or DotPredictor.forward fails, the same error surfaces to
the caller, and the feature dictionaries of the graph are left exactly as they
were (the scoped writes do not leak on the error path). -/
theorem C7_error_propagates_unchanged
    (upd ae : DGLGraph → (Nat → Vec) → Except String (Nat → Vec))
    (lin : Linear) (d : Nat) (g : GraphData) (h : Nat → Vec) (err aerr : String)
    (hupd : upd g.graph h = .error err) (hae : ae g.graph h = .error aerr) :
    SAGEConv.forwardErr upd lin d g h = (g, .error err) ∧
      DotPredictor.forwardErr ae g h = (g, .error aerr) := by
  have hget : getData (setData g.ndata "h" h) "h" = h := getData_setData _ _ _
  constructor
  · unfold SAGEConv.forwardErr localScopeE
    simp only [hget, hupd]
  · unfold DotPredictor.forwardErr localScopeE
    simp only [hget, hae]

def c7Graph : GraphData := ⟨⟨2, [(0, 1)]⟩, [], []⟩

def c7Fail : DGLGraph → (Nat → Vec) → Except String (Nat → Vec) :=
  fun _ _ => .error "backend failure"

/-- C7 witness: a concrete always-failing library call on a 2-node graph. -/
theorem C7_witness :
    SAGEConv.forwardErr c7Fail c1Lin 1 c7Graph c1H = (c7Graph, .error "backend failure") ∧
      DotPredictor.forwardErr c7Fail c7Graph c1H = (c7Graph, .error "backend failure") :=
  C7_error_propagates_unchanged c7Fail c7Fail c1Lin 1 c7Graph c1H
    "backend failure" "backend failure" rfl rfl

/-! ## Graph classification: batching and mean_nodes readout (C4) -/

/-- ReLU on node representations. -/
def reluVec (f : Nat → Vec) : Nat → Vec := fun v i => max (f v i) 0

/-- dgl.mean_nodes on a batched graph, one component at a time: for a
component with c nodes starting at global offset off, the readout row is
the mean of its node representations. -/
def meanNodesAux (h : Nat → Vec) : List Nat → Nat → List Vec
  | [], _ => []
  | c :: cs, off =>
    (fun i => (∑ j in Finset.range c, h (off + j) i) / (c : ℚ)) :: meanNodesAux h cs (off + c)

/-- dgl.mean_nodes(g, "h") on a batched graph whose components have the
given node counts, with node representations indexed globally. -/
def meanNodes (counts : List Nat) (h : Nat → Vec) : List Vec := meanNodesAux h counts 0

/-- GCN.forward from the graph-classification notebook: two GraphConv
layers (external library modules, taken as parameters) with a ReLU in
between, then the mean_nodes readout producing one row per component
graph of the batch. -/
def GCN.forward (conv1 conv2 : (Nat → Vec) → (Nat → Vec)) (counts : List Nat)
    (feat : Nat → Vec) : List Vec :=
  meanNodes counts (conv2 (reluVec (conv1 feat)))

lemma meanNodesAux_length (h : Nat → Vec) (counts : List Nat) (off : Nat) :
    (meanNodesAux h counts off).length = counts.length := by
  induction counts generalizing off with
  | nil => rfl
  | cons c cs ih => simp [meanNodesAux, ih]

lemma meanNodesAux_getD (h : Nat → Vec) (counts : List Nat) (off i : Nat)
    (hi : i < counts.length) :
    (meanNodesAux h counts off).getD i (fun _ => 0)
      = fun c => (∑ j in Finset.range (counts.getD i 0), h (off + (counts.take i).sum + j) c)
          / ((counts.getD i 0 : ℚ)) := by
  induction counts generalizing off i with
  | nil => simp at hi
  | cons c cs ih =>
    cases i with
    | zero => simp [meanNodesAux]
    | succ i =>
      have hi2 : i < cs.length := by simpa using hi
      simp only [meanNodesAux, List.getD_cons_succ, List.take_succ_cons, List.sum_cons]
      rw [ih (off + c) i hi2]
      simp only [Nat.add_assoc]

/-- C4: on a batched graph with k component graphs, GCN.forward returns
exactly k rows, and row i is the mean over the nodes of graph i (the segment of
the batch at the offset given by the sizes of the earlier components) of the node
representations produced by the two GraphConv layers, as computed by
mean_nodes. -/
theorem C4_gcn_batched_readout (conv1 conv2 : (Nat → Vec) → (Nat → Vec))
    (counts : List Nat) (feat : Nat → Vec) (i : Nat) (hi : i < counts.length) :
    (GCN.forward conv1 conv2 counts feat).length = counts.length ∧
      (GCN.forward conv1 conv2 counts feat).getD i (fun _ => 0)
        = fun c => (∑ j in Finset.range (counts.getD i 0),
              conv2 (reluVec (conv1 feat)) ((counts.take i).sum + j) c)
            / ((counts.getD i 0 : ℚ)) := by
  constructor
  · unfold GCN.forward meanNodes
    exact meanNodesAux_length _ _ _
  · unfold GCN.forward meanNodes
    rw [meanNodesAux_getD _ _ _ _ hi]
    simp

/-- C4 witness: a batch of two graphs with 1 and 2 nodes, identity convs. -/
theorem C4_witness :
    (GCN.forward id id [1, 2] c2H).length = 2 ∧
      (GCN.forward id id [1, 2] c2H).getD 1 (fun _ => 0)
        = fun c => (∑ j in Finset.range ([1, 2].getD 1 0),
              id (reluVec (id c2H)) (([1, 2].take 1).sum + j) c)
            / (([1, 2].getD 1 0 : ℚ)) := by
  have := C4_gcn_batched_readout id id [1, 2] c2H 1 (by decide)
  simpa using this

/-! ## The node-classification training loop (C5) -/

/-- The nodes selected by a boolean mask (tensor boolean indexing
logits[mask] keeps the rows at the True positions, in order). -/
def maskSelect (n : Nat) (mask : Nat → Bool) : List Nat :=
  (List.range n).filter mask

/-- F.cross_entropy with mean reduction over the selected rows; per row the
loss is log-sum-exp of the logits minus the logit of the true class.  The
exponential and logarithm are kept as parameters. -/
def crossEntropyMean (expf logf : ℚ → ℚ) (numClasses : Nat)
    (rows : List (Vec × Nat)) : ℚ :=
  (rows.map (fun r => logf (∑ j in Finset.range numClasses, expf (r.1 j)) - r.1 r.2)).sum
    / (rows.length : ℚ)

/-- The loss of the loop: F.cross_entropy(logits[train_mask],
labels[train_mask]). -/
def maskedLoss (expf logf : ℚ → ℚ) (n numClasses : Nat) (mask : Nat → Bool)
    (logits : Nat → Vec) (labels : Nat → Nat) : ℚ :=
  crossEntropyMean expf logf numClasses
    ((maskSelect n mask).map (fun v => (logits v, labels v)))

/-- logits.argmax(1) on one row: the first index of the maximal entry
among the classes. -/
def argmaxRow (x : Vec) (numClasses : Nat) : Nat :=
  (List.range numClasses).foldl (fun best j => if x best < x j then j else best) 0

/-- The masked accuracy (pred[mask] == labels[mask]).float().mean(). -/
def accMasked (n numClasses : Nat) (mask : Nat → Bool) (logits : Nat → Vec)
    (labels : Nat → Nat) : ℚ :=
  (((maskSelect n mask).filter (fun v => argmaxRow (logits v) numClasses == labels v)).length : ℚ)
    / ((maskSelect n mask).length : ℚ)

/-- Everything train(g, model) reads from the graph and the external
library: the node count, the class count, the model forward (parameters to
logits), the optimizer update (zero_grad / backward / step, external
autodiff), the three masks, the labels, and the softmax transcendentals. -/
structure TrainConfig (P : Type) where
  n : Nat
  numClasses : Nat
  fwd : P → Nat → Vec
  step : P → P
  trainMask : Nat → Bool
  valMask : Nat → Bool
  testMask : Nat → Bool
  labels : Nat → Nat
  expf : ℚ → ℚ
  logf : ℚ → ℚ

/-- The loop state: the parameters, the best accuracies, the per-epoch
losses, and the epochs at which a line was printed. -/
structure TrainSt (P : Type) where
  params : P
  bestVal : ℚ
  bestTest : ℚ
  losses : List ℚ
  printedEpochs : List Nat

/-- One epoch of train(g, model): forward, masked loss, accuracies, best
tracking, optimizer step, and the print at epochs divisible by 5. -/
def trainEpoch {P : Type} (cfg : TrainConfig P) (s : TrainSt P) (e : Nat) : TrainSt P :=
  let logits := cfg.fwd s.params
  let loss := maskedLoss cfg.expf cfg.logf cfg.n cfg.numClasses cfg.trainMask logits cfg.labels
  let valAcc := accMasked cfg.n cfg.numClasses cfg.valMask logits cfg.labels
  let testAcc := accMasked cfg.n cfg.numClasses cfg.testMask logits cfg.labels
  { params := cfg.step s.params
    bestVal := if s.bestVal < valAcc then valAcc else s.bestVal
    bestTest := if s.bestVal < valAcc then testAcc else s.bestTest
    losses := s.losses ++ [loss]
    printedEpochs := if e % 5 = 0 then s.printedEpochs ++ [e] else s.printedEpochs }

/-- The first m epochs of the loop. -/
def trainRun {P : Type} (cfg : TrainConfig P) (s0 : TrainSt P) : Nat → TrainSt P
  | 0 => s0
  | m + 1 => trainEpoch cfg (trainRun cfg s0 m) m

/-- The state before the loop. -/
def trainInit {P : Type} (p0 : P) : TrainSt P := ⟨p0, 0, 0, [], []⟩

/-- train(g, model): for e in range(200). -/
def train {P : Type} (cfg : TrainConfig P) (p0 : P) : TrainSt P :=
  trainRun cfg (trainInit p0) 200

lemma trainRun_params {P : Type} (cfg : TrainConfig P) (s0 : TrainSt P) (m : Nat) :
    (trainRun cfg s0 m).params = cfg.step^[m] s0.params := by
  induction m with
  | zero => rfl
  | succ k ih =>
    simp only [trainRun, trainEpoch, ih, Function.iterate_succ_apply']

lemma trainRun_losses {P : Type} (cfg : TrainConfig P) (s0 : TrainSt P) (m : Nat) :
    (trainRun cfg s0 m).losses
      = s0.losses ++ (List.range m).map (fun e =>
          maskedLoss cfg.expf cfg.logf cfg.n cfg.numClasses cfg.trainMask
            (cfg.fwd (cfg.step^[e] s0.params)) cfg.labels) := by
  induction m with
  | zero => simp [trainRun]
  | succ k ih =>
    simp only [trainRun, trainEpoch, ih, List.range_succ, List.map_append, List.map_cons,
      List.map_nil, List.append_assoc, trainRun_params]

lemma trainRun_printed {P : Type} (cfg : TrainConfig P) (s0 : TrainSt P) (m : Nat) :
    (trainRun cfg s0 m).printedEpochs
      = s0.printedEpochs ++ (List.range m).filter (fun e => e % 5 == 0) := by
  induction m with
  | zero => simp [trainRun]
  | succ k ih =>
    by_cases h : k % 5 = 0
    · simp only [trainRun, trainEpoch, ih, List.range_succ, List.filter_append,
        List.append_assoc, h, if_pos]
      simp [h]
    · simp only [trainRun, trainEpoch, ih, List.range_succ, List.filter_append,
        List.append_assoc, h, if_neg]
      simp [h]

/-- C5: the training loop runs exactly 200 epochs; the loss of epoch e is
cross-entropy restricted to the nodes whose train_mask entry is True (so
two logit/label assignments agreeing on the training nodes give the same
loss: validation and test nodes never contribute); and a line is printed
exactly at the epochs below 200 whose index is a multiple of 5. -/
theorem C5_train_loop {P : Type} (cfg : TrainConfig P) (p0 : P) :
    (train cfg p0).losses.length = 200 ∧
      (∀ e, e ∈ (train cfg p0).printedEpochs ↔ e < 200 ∧ 5 ∣ e) ∧
      (∀ e, e < 200 → (train cfg p0).losses.getD e 0
        = maskedLoss cfg.expf cfg.logf cfg.n cfg.numClasses cfg.trainMask
            (cfg.fwd (cfg.step^[e] p0)) cfg.labels) ∧
      (∀ (lg lg2 : Nat → Vec) (lb lb2 : Nat → Nat),
        (∀ v, v < cfg.n → cfg.trainMask v = true → lg v = lg2 v ∧ lb v = lb2 v) →
        maskedLoss cfg.expf cfg.logf cfg.n cfg.numClasses cfg.trainMask lg lb
          = maskedLoss cfg.expf cfg.logf cfg.n cfg.numClasses cfg.trainMask lg2 lb2) := by
  refine ⟨?_, ?_, ?_, ?_⟩
  · rw [train, trainRun_losses]
    simp [trainInit]
  · intro e
    rw [train, trainRun_printed]
    simp only [trainInit, List.nil_append, List.mem_filter, List.mem_range, beq_iff_eq]
    constructor
    · rintro ⟨h1, h2⟩
      exact ⟨h1, Nat.dvd_of_mod_eq_zero h2⟩
    · rintro ⟨h1, h2⟩
      refine ⟨h1, ?_⟩
      obtain ⟨c, rfl⟩ := h2
      exact Nat.mul_mod_right 5 c
  · intro e he
    rw [train, trainRun_losses]
    simp only [trainInit, List.nil_append]
    rw [List.getD_eq_getElem?_getD, List.getElem?_map, List.getElem?_range he]
    rfl
  · intro lg lg2 lb lb2 hagree
    unfold maskedLoss crossEntropyMean
    have hrows : (maskSelect cfg.n cfg.trainMask).map (fun v => (lg v, lb v))
        = (maskSelect cfg.n cfg.trainMask).map (fun v => (lg2 v, lb2 v)) := by
      apply List.map_congr_left
      intro v hv
      have hv2 := List.mem_filter.mp hv
      have hlt : v < cfg.n := List.mem_range.mp hv2.1
      have hmask : cfg.trainMask v = true := hv2.2
      have := hagree v hlt hmask
      simp [this.1, this.2]
    rw [hrows]

def c5Cfg : TrainConfig Unit :=
  ⟨2, 2, fun _ => c2H, id, fun v => v == 0, fun v => v == 1, fun _ => false,
    fun _ => 0, fun x => 1 + x * x, fun x => x⟩

/-- C5 witness: the loop properties instantiated at a concrete 2-node
configuration. -/
theorem C5_witness :
    (train c5Cfg ()).losses.length = 200 ∧
      (∀ e, e ∈ (train c5Cfg ()).printedEpochs ↔ e < 200 ∧ 5 ∣ e) ∧
      (∀ e, e < 200 → (train c5Cfg ()).losses.getD e 0
        = maskedLoss c5Cfg.expf c5Cfg.logf c5Cfg.n c5Cfg.numClasses c5Cfg.trainMask
            (c5Cfg.fwd (c5Cfg.step^[e] ())) c5Cfg.labels) ∧
      (∀ (lg lg2 : Nat → Vec) (lb lb2 : Nat → Nat),
        (∀ v, v < c5Cfg.n → c5Cfg.trainMask v = true → lg v = lg2 v ∧ lb v = lb2 v) →
        maskedLoss c5Cfg.expf c5Cfg.logf c5Cfg.n c5Cfg.numClasses c5Cfg.trainMask lg lb
          = maskedLoss c5Cfg.expf c5Cfg.logf c5Cfg.n c5Cfg.numClasses c5Cfg.trainMask lg2 lb2) :=
  C5_train_loop c5Cfg ()

/-! ## Link prediction: negative-example construction (C9) -/

/-- One entry of adj.todense(): the (u, v) entry of
sp.coo_matrix((ones, (u, v))) is the number of times the edge (u, v)
occurs (coo_matrix sums duplicate coordinates). -/
def adjEntry (es : List (Nat × Nat)) (u v : Nat) : Nat :=
  es.countP (fun e => decide (e = (u, v)))

/-- One entry of adj_neg = 1 - adj.todense() - np.eye(num_nodes). -/
def adjNegEntry (es : List (Nat × Nat)) (u v : Nat) : ℤ :=
  1 - (adjEntry es u v : ℤ) - (if u = v then 1 else 0)

/-- neg_u, neg_v = np.where(adj_neg != 0), as the row-major list of
candidate pairs. -/
def negPairs (n : Nat) (es : List (Nat × Nat)) : List (Nat × Nat) :=
  (List.range n).flatMap (fun u =>
    ((List.range n).filter (fun v => adjNegEntry es u v != 0)).map (fun v => (u, v)))

lemma countP_pair_eq_one (es : List (Nat × Nat)) (a : Nat × Nat) (hnd : es.Nodup)
    (hmem : a ∈ es) : es.countP (fun e => decide (e = a)) = 1 := by
  induction es with
  | nil => cases hmem
  | cons e tl ih =>
    rw [List.countP_cons]
    rcases List.nodup_cons.mp hnd with ⟨hnotmem, hnd2⟩
    rcases List.mem_cons.mp hmem with rfl | hmem2
    · have h0 : tl.countP (fun e => decide (e = a)) = 0 := by
        rw [List.countP_eq_zero]
        intro b hb
        simp only [decide_eq_true_eq]
        rintro rfl
        exact hnotmem hb
      simp [h0]
    · have hne : ¬(e = a) := by
        rintro rfl
        exact hnotmem hmem2
      simp [ih hnd2 hmem2, hne]

/-- C9: for a simple graph (no duplicate edges, no self-loops) every
candidate pair produced from adj_neg is a genuine non-edge with distinct
endpoints; in particular every sampled negative example, being drawn from
these candidates, is a non-edge. -/
theorem C9_negative_pairs_sound (n : Nat) (es : List (Nat × Nat)) (hnd : es.Nodup)
    (hsl : ∀ e ∈ es, e.1 ≠ e.2) (u v : Nat) (hmem : (u, v) ∈ negPairs n es) :
    u ≠ v ∧ (u, v) ∉ es := by
  simp only [negPairs, List.mem_flatMap] at hmem
  obtain ⟨u2, hu2, hpair⟩ := hmem
  rw [List.mem_map] at hpair
  obtain ⟨v2, hv2, heq⟩ := hpair
  cases heq
  have hne : adjNegEntry es u v ≠ 0 := by
    have := (List.mem_filter.mp hv2).2
    simpa using this
  constructor
  · intro huv
    apply hne
    subst huv
    have hcount : adjEntry es u u = 0 := by
      rw [adjEntry, List.countP_eq_zero]
      intro b hb
      simp only [decide_eq_true_eq]
      rintro rfl
      exact hsl (u, u) hb rfl
    simp [adjNegEntry, hcount]
  · intro hmem2
    apply hne
    have hcount : adjEntry es u v = 1 := by
      rw [adjEntry]
      exact countP_pair_eq_one es (u, v) hnd hmem2
    have huv : u ≠ v := hsl (u, v) hmem2
    simp [adjNegEntry, hcount, huv]

/-- C9 witness: on the 2-node graph with the single edge 0 → 1, the pair
(1, 0) is a candidate and is indeed a distinct-endpoint non-edge. -/
theorem C9_witness :
    ((1, 0) ∈ negPairs 2 [(0, 1)]) ∧ ((1 : Nat) ≠ 0 ∧ ((1, 0) ∉ [(0, 1)])) :=
  ⟨by decide, C9_negative_pairs_sound 2 [(0, 1)] (by decide) (by decide) 1 0 (by decide)⟩

/-! ## KarateClubDataset.process: split masks (C10) -/

/-- n_train = int(n_nodes * 0.6) (exact arithmetic: the floor of 0.6 n). -/
def nTrainSplit (n : Nat) : Nat := 3 * n / 5

/-- n_val = int(n_nodes * 0.2) (exact arithmetic: the floor of 0.2 n). -/
def nValSplit (n : Nat) : Nat := n / 5

/-- train_mask = zeros(n); train_mask[:n_train] = True. -/
def trainMaskList (n : Nat) : List Bool :=
  (List.range n).map (fun i => decide (i < nTrainSplit n))

/-- val_mask = zeros(n); val_mask[n_train : n_train + n_val] = True. -/
def valMaskList (n : Nat) : List Bool :=
  (List.range n).map (fun i => decide (nTrainSplit n ≤ i ∧ i < nTrainSplit n + nValSplit n))

/-- test_mask = zeros(n); test_mask[n_train + n_val :] = True. -/
def testMaskList (n : Nat) : List Bool :=
  (List.range n).map (fun i => decide (nTrainSplit n + nValSplit n ≤ i))

lemma getD_map_range (n i : Nat) (p : Nat → Bool) (hi : i < n) :
    (((List.range n).map p).getD i false) = p i := by
  rw [List.getD_eq_getElem?_getD, List.getElem?_map, List.getElem?_range hi]
  rfl

lemma length_filter_range_decide (n : Nat) (p : Nat → Prop) [DecidablePred p] :
    ((List.range n).filter (fun i => decide (p i))).length
      = ((Finset.range n).filter p).card := by
  rw [length_filter_range]
  congr 1
  apply Finset.filter_congr
  intro x _
  simp

lemma count_true_map (l : List Nat) (p : Nat → Bool) :
    (l.map p).count true = (l.filter p).length := by
  induction l with
  | nil => rfl
  | cons a tl ih =>
    by_cases h : p a
    · simp [List.filter_cons, h, ih, List.count_cons]
    · simp [List.filter_cons, h, ih, List.count_cons]

/-- C10: the three masks stored by KarateClubDataset.process partition the
n nodes: at every node exactly one of train/val/test is True, and the
numbers of True entries are floor(0.6 n), floor(0.2 n), and the rest. -/
theorem C10_split_masks_partition (n i : Nat) (hi : i < n) :
    (((trainMaskList n).getD i false ∨ (valMaskList n).getD i false
        ∨ (testMaskList n).getD i false) ∧
      ¬((trainMaskList n).getD i false ∧ (valMaskList n).getD i false) ∧
      ¬((trainMaskList n).getD i false ∧ (testMaskList n).getD i false) ∧
      ¬((valMaskList n).getD i false ∧ (testMaskList n).getD i false)) ∧
      (trainMaskList n).count true = 3 * n / 5 ∧
      (valMaskList n).count true = n / 5 ∧
      (testMaskList n).count true = n - 3 * n / 5 - n / 5 := by
  have htr : 3 * n / 5 + n / 5 ≤ n := by omega
  constructor
  · rw [trainMaskList, valMaskList, testMaskList,
      getD_map_range n i _ hi, getD_map_range n i _ hi, getD_map_range n i _ hi]
    simp only [decide_eq_true_eq, nTrainSplit, nValSplit]
    omega
  · refine ⟨?_, ?_, ?_⟩
    · rw [trainMaskList, count_true_map, length_filter_range_decide]
      have hset : (Finset.range n).filter (fun x => x < nTrainSplit n)
          = Finset.range (nTrainSplit n) := by
        ext x
        simp only [Finset.mem_filter, Finset.mem_range]
        unfold nTrainSplit
        omega
      rw [hset, Finset.card_range, nTrainSplit]
    · rw [valMaskList, count_true_map, length_filter_range_decide]
      have hset : (Finset.range n).filter
            (fun x => nTrainSplit n ≤ x ∧ x < nTrainSplit n + nValSplit n)
          = Finset.Ico (nTrainSplit n) (nTrainSplit n + nValSplit n) := by
        ext x
        simp only [Finset.mem_filter, Finset.mem_range, Finset.mem_Ico]
        unfold nTrainSplit nValSplit
        omega
      rw [hset, Nat.card_Ico]
      unfold nTrainSplit nValSplit
      omega
    · rw [testMaskList, count_true_map, length_filter_range_decide]
      have hset : (Finset.range n).filter (fun x => nTrainSplit n + nValSplit n ≤ x)
          = Finset.Ico (nTrainSplit n + nValSplit n) n := by
        ext x
        simp only [Finset.mem_filter, Finset.mem_range, Finset.mem_Ico]
        omega
      rw [hset, Nat.card_Ico]
      unfold nTrainSplit nValSplit
      omega

/-- C10 witness: the partition instantiated at the 34-member karate club
table, node 0. -/
theorem C10_witness :
    (0 < 34) ∧
    ((((trainMaskList 34).getD 0 false ∨ (valMaskList 34).getD 0 false
        ∨ (testMaskList 34).getD 0 false) ∧
      ¬((trainMaskList 34).getD 0 false ∧ (valMaskList 34).getD 0 false) ∧
      ¬((trainMaskList 34).getD 0 false ∧ (testMaskList 34).getD 0 false) ∧
      ¬((valMaskList 34).getD 0 false ∧ (testMaskList 34).getD 0 false)) ∧
      (trainMaskList 34).count true = 3 * 34 / 5 ∧
      (valMaskList 34).count true = 34 / 5 ∧
      (testMaskList 34).count true = 34 - 3 * 34 / 5 - 34 / 5) :=
  ⟨by decide, C10_split_masks_partition 34 0 (by decide)⟩
